import Mathlib

/-!
Verification development for the `seeing_noise` procedural noise engine.

Numeric model: `f64` values are modelled as exact rationals (`ℚ`), except for
the Worley distance query whose metrics need `Real.sqrt`/`Real.rpow` and which
is therefore modelled over `ℝ`.  Decimal float literals of the source are taken
at face value as rationals.  The transcendental primitive `f64::powf` that the
standard-mode fBm accumulators apply to `gain` is abstracted as an explicit
function parameter `fpow`.  Machine-integer wrapping (`u32`, `usize`) is made
explicit with `% 2 ^ 32` / masking where it matters.
-/

namespace SeeingNoise

/-- Fixed square raster size, `RESOLUTION` in src/drawer.rs. -/
def RESOLUTION : Nat := 400

/-- Half the raster size, `HALF_RESOLUTION` in src/drawer.rs. -/
def HALF_RESOLUTION : Nat := 200

/-- Linear interpolation `lerp` from src/noises/helpers.rs. -/
def lerp (t a b : ℚ) : ℚ := a + t * (b - a)

/-- Quintic fade curve `fade` from src/noises/perlin_noise.rs. -/
def fade (t : ℚ) : ℚ := t * t * t * (t * (t * 6 - 15) + 10)

/-- Gradient table `get_perlin_vec` from src/noises/helpers.rs: `hash & 7`
selects one of 8 fixed gradient vectors. -/
def get_perlin_vec (hash : Nat) : ℚ × ℚ :=
  match hash % 8 with
  | 0 => (1, 0)
  | 1 => (1, 1)
  | 2 => (0, 1)
  | 3 => (-1, 1)
  | 4 => (-1, 0)
  | 5 => (-1, -1)
  | 6 => (0, -1)
  | _ => (1, -1)

/-- Squared Euclidean length of a 2-vector; length is 1 exactly when the
squared length is 1, which lets the unit-vector question stay inside `ℚ`. -/
def sqLen (v : ℚ × ℚ) : ℚ := v.1 * v.1 + v.2 * v.2

/-- Dot product `perlin_grad` from src/noises/helpers.rs. -/
def perlin_grad (hash : Nat) (x y : ℚ) : ℚ :=
  let (xm, ym) := get_perlin_vec hash
  xm * x + ym * y

/-- Model of the external `squirrel_noise5` crate's integer hash (the
SquirrelNoise5 bit-mangling function) that `shuffle` uses as its random
source; 32-bit wrapping arithmetic is written with explicit `% 2 ^ 32`.
Values stay below `2 ^ 32`, so the xor-shift steps need no extra reduction. -/
def squirrel_noise5 (position seed : Nat) : Nat :=
  let m := 2 ^ 32
  let x1 := position % m * 0xd2a80a3f % m
  let x2 := (x1 + seed) % m
  let x3 := x2 ^^^ (x2 >>> 9)
  let x4 := (x3 + 0xa884f197) % m
  let x5 := x4 ^^^ (x4 >>> 11)
  let x6 := x5 * 0x6C736F4B % m
  let x7 := x6 ^^^ (x6 >>> 13)
  let x8 := (x7 + 0xB79F3ABB) % m
  let x9 := x8 ^^^ (x8 >>> 15)
  let x10 := x9 * 0x1b56c4f5 % m
  x10 ^^^ (x10 >>> 17)

/-- Slice swap `v.swap(i, j)` on a list; both indices are in bounds wherever
`shuffle` performs it, so the `getD` defaults are never used. -/
def swapAt (l : List Nat) (i j : Nat) : List Nat :=
  (l.set i (l.getD j 0)).set j (l.getD i 0)

/-- Loop of `shuffle` from src/noises/helpers.rs: `i` runs from 255 down
to 1, each step swapping position `i` with `squirrel_noise5(i, seed) % (i+1)`.
The numeral argument is the next index to process. -/
def shuffleFrom (seed : Nat) : Nat → List Nat → List Nat
  | 0, l => l
  | i + 1, l =>
      shuffleFrom seed i (swapAt l (i + 1) (squirrel_noise5 (i + 1) seed % (i + 2)))

/-- The `shuffle` entry point from src/noises/helpers.rs. -/
def shuffle (l : List Nat) (seed : Nat) : List Nat := shuffleFrom seed 255 l

/-- Permutation-table construction shared by `PerlinNoiseImpl::new`,
`SimplexNoiseImpl::new`, `GaborNoiseImpl::new`, `WorleyNoiseImpl::new` and
`AnisotropicNoiseImpl::new`: identity table of 256 entries, then `shuffle`. -/
def buildTable (seed : Nat) : List Nat := shuffle (List.range 256) seed

/-- Mask `(z & 255)` of an `i32` (two's complement), as a natural number. -/
def maskZ (z : ℤ) : Nat := (z % 256).toNat

/-- The double-lookup fold `PerlinNoiseImpl::hash` from
src/noises/perlin_noise.rs: `permutation[(permutation[x & 255] + (y & 255)) & 255]`. -/
def perlin_hash (tb : List Nat) (x y : ℤ) : Nat :=
  tb.getD ((tb.getD (maskZ x) 0 + maskZ y) % 256) 0

/-- `GaborNoiseImpl::hash` from src/noises/gabor_noise.rs (same formula). -/
def gabor_hash (tb : List Nat) (x y : ℤ) : Nat :=
  tb.getD ((tb.getD (maskZ x) 0 + maskZ y) % 256) 0

/-- `AnisotropicNoiseImpl::hash` from src/noises/anisotropic_noise.rs
(same formula). -/
def anisotropic_hash (tb : List Nat) (x y : ℤ) : Nat :=
  tb.getD ((tb.getD (maskZ x) 0 + maskZ y) % 256) 0

/-- The index computed inside `WorleyNoiseImpl::hash2d` from
src/noises/worley_noise.rs (same formula, before the offset quantization). -/
def worley_hash_index (tb : List Nat) (x y : ℤ) : Nat :=
  tb.getD ((tb.getD (maskZ x) 0 + maskZ y) % 256) 0

/-- `SimplexNoiseImpl::get_perm` from src/noises/simplex_noise.rs:
`permutation[i & 255]`.  The `usize` argument may have wrapped, but wrapping
mod `2 ^ 64` is absorbed by the `& 255` mask, so a natural-number argument
taken mod 256 is an exact model. -/
def simplex_get_perm (tb : List Nat) (i : Nat) : Nat := tb.getD (i % 256) 0

/-- The corner-index fold the Simplex kernel applies to a lattice corner
`(i, j)`: `get_perm(ii + get_perm(jj))` in `SimplexNoiseImpl::noise_val`,
with `ii`, `jj` the `usize` casts of the corner coordinates.  The sum before
the outer mask wraps mod `2 ^ 64`, which is again absorbed by `& 255`. -/
def simplex_corner_hash (tb : List Nat) (i j : ℤ) : Nat :=
  simplex_get_perm tb (maskZ i + simplex_get_perm tb (maskZ j))

/-- Rust `f64::clamp` on the rational model (callers always pass `lo ≤ hi`). -/
def clampQ (x lo hi : ℚ) : ℚ := min hi (max lo x)

/-- Saturating truncation `as u8` of an `f64`, on the rational model: values
below 0 give 0, above 255 give 255; truncation toward zero agrees with
`Int.floor` once the result is clamped at 0. -/
def f64AsU8 (q : ℚ) : Nat := (min 255 (max 0 ⌊q⌋)).toNat

/-- RGBA bytes one pixel of `PerlinNoiseImpl::generate_coloring` pushes for a
scalar `noise_val` (the same two-sided ramp is used by the Gabor, Wavelet and
Anisotropic colorings). -/
def perlin_quantize (noiseVal : ℚ) : List Nat :=
  if noiseVal < 0 then
    let t := noiseVal + 1
    [255, f64AsU8 (lerp t 0 255), 255, 255]
  else
    let t := noiseVal
    [f64AsU8 (lerp t 255 0), 255, f64AsU8 (lerp t 255 0), 255]

/-- RGBA bytes one pixel of `WorleyNoiseImpl::generate_coloring` pushes:
the scalar is clamped to `[-1, 1]` first, then run through the same ramp. -/
def worley_quantize (noiseVal : ℚ) : List Nat :=
  let normalized := clampQ noiseVal (-1) 1
  if normalized < 0 then
    let t := normalized + 1
    [255, f64AsU8 (lerp t 0 255), 255, 255]
  else
    let t := normalized
    [f64AsU8 (lerp t 255 0), 255, f64AsU8 (lerp t 255 0), 255]

/-- The three visualization radio modes shared by all noise families. -/
inductive Visualization
  | Final
  | SingleOctave
  | AccumulatedOctaves
deriving DecidableEq

/-- The per-octave inclusion predicate every fBm accumulator matches on
`settings.visualization`. -/
def octaveIncluded (v : Visualization) (showOctave i : Nat) : Bool :=
  match v with
  | .Final => true
  | .SingleOctave => i == showOctave
  | .AccumulatedOctaves => decide (i ≤ showOctave)

/-- `NoiseType` radio of the Perlin family (src/noises/perlin_noise.rs);
the Simplex family uses the same four variants. -/
inductive PerlinNoiseType
  | Standard
  | Turbulence
  | Ridge
  | DomainWarp
deriving DecidableEq

/-- `NoiseType` radio of the Gabor family (src/noises/gabor_noise.rs). -/
inductive GaborNoiseType
  | Standard
  | Turbulence
  | Anisotropic
  | DomainWarp
deriving DecidableEq

/-- `NoiseType` radio of the Worley family (src/noises/worley_noise.rs). -/
inductive WorleyNoiseType
  | F1
  | F2MinusF1
  | Crackle
  | DomainWarp
deriving DecidableEq

/-- `DistanceMetric` radio of the Worley family. -/
inductive DistanceMetric
  | Euclidean
  | Manhattan
  | Chebyshev
  | Minkowski
deriving DecidableEq

/-- `PerlinNoiseSettings` generated by the `define_noise!` macro: the flat
slider/radio/checkbox snapshot passed by value into the fBm functions. -/
structure PerlinNoiseSettings where
  seed : Nat
  scale : ℚ
  octaves : Nat
  lacunarity : ℚ
  gain : ℚ
  h_exponent : ℚ
  ridge_offset : ℚ
  warp_amount : ℚ
  show_octave : Nat
  visualization : Visualization
  noise_type : PerlinNoiseType
  show_grid : Bool
  show_vectors : Bool
  show_dot_products : Bool
deriving DecidableEq

/-- `SimplexNoiseSettings` snapshot (src/noises/simplex_noise.rs). -/
structure SimplexNoiseSettings where
  seed : Nat
  scale : ℚ
  octaves : Nat
  lacunarity : ℚ
  gain : ℚ
  h_exponent : ℚ
  ridge_offset : ℚ
  warp_amount : ℚ
  show_octave : Nat
  visualization : Visualization
  noise_type : PerlinNoiseType
  show_grid : Bool
  show_vectors : Bool
deriving DecidableEq

/-- `GaborNoiseSettings` snapshot (src/noises/gabor_noise.rs). -/
structure GaborNoiseSettings where
  seed : Nat
  scale : ℚ
  octaves : Nat
  lacunarity : ℚ
  gain : ℚ
  base_frequency : ℚ
  bandwidth : ℚ
  kernel_radius : Nat
  anisotropy : ℚ
  warp_amount : ℚ
  show_octave : Nat
  visualization : Visualization
  noise_type : GaborNoiseType
  show_grid : Bool
  show_impulses : Bool
deriving DecidableEq

/-- `WorleyNoiseSettings` snapshot (src/noises/worley_noise.rs). -/
structure WorleyNoiseSettings where
  seed : Nat
  scale : ℚ
  octaves : Nat
  lacunarity : ℚ
  gain : ℚ
  crackle_power : ℚ
  warp_amount : ℚ
  show_octave : Nat
  visualization : Visualization
  noise_type : WorleyNoiseType
  distance_metric : DistanceMetric
  show_grid : Bool
  show_points : Bool
deriving DecidableEq

/-- Mutable loop state of the standard/turbulence-shaped fBm accumulators:
`total`, `frequency`, `amplitude`, `max_value`. -/
structure FbmState where
  total : ℚ
  frequency : ℚ
  amplitude : ℚ
  maxValue : ℚ
deriving DecidableEq

/-- The octave loop shared (verbatim in the source, up to which sampler is
called and where `frequency` feeds) by the standard, turbulence and
anisotropic fBm accumulators of all families.  `oval f` is the per-octave
value obtained when the running frequency is `f` — for Perlin standard mode it
is `sample_noise(x*f, y*f, use_dot_products)`, for Gabor it is
`sample_gabor_sparse(x, y, f, bandwidth, kernel_radius)`, and so on; `d` is
the per-octave amplitude factor (`gain.powf(h_exponent)` in standard mode,
plain `gain` otherwise); `lac` is the lacunarity.  The `Nat` arguments are the
number of remaining iterations and the octave counter `i` of
`for i in 1..=octaves`. -/
def fbmLoop (oval : ℚ → ℚ) (vis : Visualization) (showOct : Nat) (d lac : ℚ) :
    Nat → Nat → FbmState → FbmState
  | 0, _, st => st
  | n + 1, i, st =>
      let noiseVal := oval st.frequency
      let st1 :=
        if octaveIncluded vis showOct i then
          { st with
              total := st.total + noiseVal * st.amplitude
              maxValue := st.maxValue + st.amplitude }
        else st
      fbmLoop oval vis showOct d lac n (i + 1)
        { st1 with
            amplitude := st1.amplitude * d
            frequency := st1.frequency * lac }

/-- Mutable loop state of the ridge accumulators: the previous state plus the
cross-octave `weight`. -/
structure RidgeState where
  total : ℚ
  frequency : ℚ
  amplitude : ℚ
  maxValue : ℚ
  weight : ℚ
deriving DecidableEq

/-- The ridge octave loop shared verbatim by `PerlinNoiseImpl::fbm_ridge` and
`SimplexNoiseImpl::fbm_ridge`.  `sample` stands for the kernel method the
loop invokes (`self.sample_noise(·, ·, use_dot_products)` for Perlin,
`self.noise_val` for Simplex).  Note that the `weight` update reads the outer
`noise_val` binding (`ridge_offset - |sample|`): the shadowing `let` inside
the `if include` block stays local to that block in the source. -/
def ridgeLoop (sample : ℚ → ℚ → ℚ) (vis : Visualization) (showOct : Nat)
    (ridgeOffset gain lac x y : ℚ) : Nat → Nat → RidgeState → RidgeState
  | 0, _, st => st
  | n + 1, i, st =>
      let noiseVal := ridgeOffset - |sample (x * st.frequency) (y * st.frequency)|
      let st1 :=
        if octaveIncluded vis showOct i then
          { st with
              total := st.total + noiseVal * noiseVal * st.weight * st.amplitude
              maxValue := st.maxValue + st.amplitude }
        else st
      ridgeLoop sample vis showOct ridgeOffset gain lac x y n (i + 1)
        { st1 with
            weight := clampQ (noiseVal * 2) 0 1
            amplitude := st1.amplitude * gain
            frequency := st1.frequency * lac }

/-- `PerlinNoiseImpl::noise_blend_full`: quintic-faded bilinear blend of the
four corner gradient dot products.  `tb` is the instance's permutation table. -/
def noise_blend_full (tb : List Nat) (x y : ℚ) : ℚ :=
  let xi : ℤ := ⌊x⌋
  let yi : ℤ := ⌊y⌋
  let xf : ℚ := x - (xi : ℚ)
  let yf : ℚ := y - (yi : ℚ)
  let u := fade xf
  let v := fade yf
  let aa := perlin_hash tb xi yi
  let ab := perlin_hash tb xi (yi + 1)
  let ba := perlin_hash tb (xi + 1) yi
  let bb := perlin_hash tb (xi + 1) (yi + 1)
  let x1 := lerp u (perlin_grad aa xf yf) (perlin_grad ba (xf - 1) yf)
  let x2 := lerp u (perlin_grad ab xf (yf - 1)) (perlin_grad bb (xf - 1) (yf - 1))
  lerp v x1 x2

/-- `PerlinNoiseImpl::noise_blend_dot_products`: nearest-corner variant used
when the `show_dot_products` checkbox is set. -/
def noise_blend_dot_products (tb : List Nat) (x y : ℚ) : ℚ :=
  let xi : ℤ := ⌊x⌋
  let yi : ℤ := ⌊y⌋
  let xf : ℚ := x - (xi : ℚ)
  let yf : ℚ := y - (yi : ℚ)
  if xf < 1 / 2 then
    if yf < 1 / 2 then
      perlin_grad (perlin_hash tb xi yi) (fade (xf * 2)) (fade (yf * 2))
    else
      perlin_grad (perlin_hash tb xi (yi + 1)) (fade (xf * 2)) (fade ((yf - 1 / 2) * 2))
  else
    if yf < 1 / 2 then
      perlin_grad (perlin_hash tb (xi + 1) yi) (fade ((xf - 1 / 2) * 2)) (fade (yf * 2))
    else
      perlin_grad (perlin_hash tb (xi + 1) (yi + 1)) (fade ((xf - 1 / 2) * 2))
        (fade ((yf - 1 / 2) * 2))

/-- `PerlinNoiseImpl::sample_noise`: dispatch between the two blend modes. -/
def sample_noise (tb : List Nat) (x y : ℚ) (useDotProducts : Bool) : ℚ :=
  if useDotProducts then noise_blend_dot_products tb x y else noise_blend_full tb x y

/-- Final loop state of `PerlinNoiseImpl::fbm_standard`.  `sample` stands for
the bound method `self.sample_noise(·, ·, use_dot_products)` of the constructed
instance; `fpow` models `f64::powf` in `gain.powf(h_exponent)`. -/
def perlinFbmStandardState (sample : ℚ → ℚ → ℚ) (fpow : ℚ → ℚ → ℚ)
    (s : PerlinNoiseSettings) (x y : ℚ) : FbmState :=
  fbmLoop (fun f => sample (x * f) (y * f)) s.visualization s.show_octave
    (fpow s.gain s.h_exponent) s.lacunarity s.octaves 1 ⟨0, 1, 1, 0⟩

/-- `PerlinNoiseImpl::fbm_standard`: `total / max_value` after the loop. -/
def perlinFbmStandard (sample : ℚ → ℚ → ℚ) (fpow : ℚ → ℚ → ℚ)
    (s : PerlinNoiseSettings) (x y : ℚ) : ℚ :=
  (perlinFbmStandardState sample fpow s x y).total /
    (perlinFbmStandardState sample fpow s x y).maxValue

/-- `PerlinNoiseImpl::fbm_turbulence`: absolute sample values, amplitude
decays by plain `gain`. -/
def perlinFbmTurbulence (sample : ℚ → ℚ → ℚ) (s : PerlinNoiseSettings)
    (x y : ℚ) : ℚ :=
  (fbmLoop (fun f => |sample (x * f) (y * f)|) s.visualization s.show_octave
    s.gain s.lacunarity s.octaves 1 ⟨0, 1, 1, 0⟩).total /
  (fbmLoop (fun f => |sample (x * f) (y * f)|) s.visualization s.show_octave
    s.gain s.lacunarity s.octaves 1 ⟨0, 1, 1, 0⟩).maxValue

/-- Final loop state of `PerlinNoiseImpl::fbm_ridge`. -/
def perlinFbmRidgeState (sample : ℚ → ℚ → ℚ) (s : PerlinNoiseSettings)
    (x y : ℚ) : RidgeState :=
  ridgeLoop sample s.visualization s.show_octave s.ridge_offset s.gain
    s.lacunarity x y s.octaves 1 ⟨0, 1, 1, 0, 1⟩

/-- `PerlinNoiseImpl::fbm_ridge`. -/
def perlinFbmRidge (sample : ℚ → ℚ → ℚ) (s : PerlinNoiseSettings) (x y : ℚ) : ℚ :=
  (perlinFbmRidgeState sample s x y).total / (perlinFbmRidgeState sample s x y).maxValue

/-- `PerlinNoiseImpl::fbm_domain_warp`: two auxiliary standard fields at
offset coordinates displace the sample point; the auxiliary settings force
`h_exponent = 1`. -/
def perlinFbmDomainWarp (sample : ℚ → ℚ → ℚ) (fpow : ℚ → ℚ → ℚ)
    (s : PerlinNoiseSettings) (x y : ℚ) : ℚ :=
  let adjusted : PerlinNoiseSettings := { s with h_exponent := 1 }
  let qx := perlinFbmStandard sample fpow adjusted x y
  let qy := perlinFbmStandard sample fpow adjusted (x + 26 / 5) (y + 13 / 10)
  perlinFbmStandard sample fpow adjusted (x + s.warp_amount * qx) (y + s.warp_amount * qy)

/-- Per-pixel scalar and quantization of `PerlinNoiseImpl::generate_coloring`
at grid coordinate `(x, y)`. -/
def perlinPixel (fpow : ℚ → ℚ → ℚ) (tb : List Nat) (s : PerlinNoiseSettings)
    (x y : Nat) : List Nat :=
  let nx := ((x : ℚ) - (HALF_RESOLUTION : ℚ)) / s.scale
  let ny := ((y : ℚ) - (HALF_RESOLUTION : ℚ)) / s.scale
  let sample := fun a b => sample_noise tb a b s.show_dot_products
  let noiseVal :=
    match s.noise_type with
    | .Standard => perlinFbmStandard sample fpow s nx ny
    | .Turbulence => perlinFbmTurbulence sample s nx ny
    | .Ridge => perlinFbmRidge sample s nx ny
    | .DomainWarp => perlinFbmDomainWarp sample fpow s nx ny
  perlin_quantize noiseVal

/-- `PerlinNoiseImpl::generate_coloring`: row-major full-grid byte buffer. -/
def perlinGenerateColoring (fpow : ℚ → ℚ → ℚ) (tb : List Nat)
    (s : PerlinNoiseSettings) : List Nat :=
  (List.range RESOLUTION).flatMap fun y =>
    (List.range RESOLUTION).flatMap fun x => perlinPixel fpow tb s x y

/-- Skew constant `SimplexNoiseImpl::F2`, the source's decimal literal. -/
def F2 : ℚ := 3660254037844386 / 10 ^ 16

/-- Unskew constant `SimplexNoiseImpl::G2`, the source's decimal literal. -/
def G2 : ℚ := 21132486540518708 / 10 ^ 17

/-- `SimplexNoiseImpl::noise_val`: skew, triangle selection, three gated
corner contributions, scaled by 70. -/
def simplex_noise_val (tb : List Nat) (x y : ℚ) : ℚ :=
  let s := (x + y) * F2
  let i : ℤ := ⌊x + s⌋
  let j : ℤ := ⌊y + s⌋
  let t : ℚ := ((i + j : ℤ) : ℚ) * G2
  let x0 := x - ((i : ℚ) - t)
  let y0 := y - ((j : ℚ) - t)
  let ij1 : ℤ × ℤ := if x0 > y0 then (1, 0) else (0, 1)
  let x1 := x0 - (ij1.1 : ℚ) + G2
  let y1 := y0 - (ij1.2 : ℚ) + G2
  let x2 := x0 - 1 + 2 * G2
  let y2 := y0 - 1 + 2 * G2
  let gi0 := simplex_corner_hash tb i j
  let gi1 := simplex_corner_hash tb (i + ij1.1) (j + ij1.2)
  let gi2 := simplex_corner_hash tb (i + 1) (j + 1)
  let t0 := 1 / 2 - x0 * x0 - y0 * y0
  let n0 := if t0 ≥ 0 then t0 * t0 * (t0 * t0) * perlin_grad gi0 x0 y0 else 0
  let t1 := 1 / 2 - x1 * x1 - y1 * y1
  let n1 := if t1 ≥ 0 then t1 * t1 * (t1 * t1) * perlin_grad gi1 x1 y1 else 0
  let t2 := 1 / 2 - x2 * x2 - y2 * y2
  let n2 := if t2 ≥ 0 then t2 * t2 * (t2 * t2) * perlin_grad gi2 x2 y2 else 0
  70 * (n0 + n1 + n2)

/-- Final loop state of `SimplexNoiseImpl::fbm_standard`; `sample` stands for
the bound method `self.noise_val`. -/
def simplexFbmStandardState (sample : ℚ → ℚ → ℚ) (fpow : ℚ → ℚ → ℚ)
    (s : SimplexNoiseSettings) (x y : ℚ) : FbmState :=
  fbmLoop (fun f => sample (x * f) (y * f)) s.visualization s.show_octave
    (fpow s.gain s.h_exponent) s.lacunarity s.octaves 1 ⟨0, 1, 1, 0⟩

/-- `SimplexNoiseImpl::fbm_standard`. -/
def simplexFbmStandard (sample : ℚ → ℚ → ℚ) (fpow : ℚ → ℚ → ℚ)
    (s : SimplexNoiseSettings) (x y : ℚ) : ℚ :=
  (simplexFbmStandardState sample fpow s x y).total /
    (simplexFbmStandardState sample fpow s x y).maxValue

/-- `SimplexNoiseImpl::fbm_ridge` (same loop as the Perlin one). -/
def simplexFbmRidge (sample : ℚ → ℚ → ℚ) (s : SimplexNoiseSettings) (x y : ℚ) : ℚ :=
  (ridgeLoop sample s.visualization s.show_octave s.ridge_offset s.gain
    s.lacunarity x y s.octaves 1 ⟨0, 1, 1, 0, 1⟩).total /
  (ridgeLoop sample s.visualization s.show_octave s.ridge_offset s.gain
    s.lacunarity x y s.octaves 1 ⟨0, 1, 1, 0, 1⟩).maxValue

/-- Type of the Gabor sparse-convolution sampler
`GaborNoiseImpl::sample_gabor_sparse(x, y, frequency, bandwidth, kernel_radius)`.
Its body mixes `exp`, `cos` and `sqrt`, so the fBm layer treats it as an
opaque function of its five arguments — exactly how the accumulators call it. -/
abbrev GaborKernel := ℚ → ℚ → ℚ → ℚ → Nat → ℚ

/-- Final loop state of `GaborNoiseImpl::fbm_standard`: `frequency` starts at
`settings.base_frequency` and is passed to the kernel as an argument; the
sample coordinates are NOT scaled by it. -/
def gaborFbmStandardState (kernel : GaborKernel) (s : GaborNoiseSettings)
    (x y : ℚ) : FbmState :=
  fbmLoop (fun f => kernel x y f s.bandwidth s.kernel_radius) s.visualization
    s.show_octave s.gain s.lacunarity s.octaves 1 ⟨0, s.base_frequency, 1, 0⟩

/-- `GaborNoiseImpl::fbm_standard`: divides by `max_value.max(0.001)`. -/
def gaborFbmStandard (kernel : GaborKernel) (s : GaborNoiseSettings) (x y : ℚ) : ℚ :=
  (gaborFbmStandardState kernel s x y).total /
    max (gaborFbmStandardState kernel s x y).maxValue (1 / 1000)

/-- Final loop state of `GaborNoiseImpl::fbm_turbulence`. -/
def gaborFbmTurbulenceState (kernel : GaborKernel) (s : GaborNoiseSettings)
    (x y : ℚ) : FbmState :=
  fbmLoop (fun f => |kernel x y f s.bandwidth s.kernel_radius|) s.visualization
    s.show_octave s.gain s.lacunarity s.octaves 1 ⟨0, s.base_frequency, 1, 0⟩

/-- `GaborNoiseImpl::fbm_turbulence`: divides by `max_value.max(0.001)`. -/
def gaborFbmTurbulence (kernel : GaborKernel) (s : GaborNoiseSettings) (x y : ℚ) : ℚ :=
  (gaborFbmTurbulenceState kernel s x y).total /
    max (gaborFbmTurbulenceState kernel s x y).maxValue (1 / 1000)

/-- Final loop state of `GaborNoiseImpl::fbm_anisotropic`: the loop samples at
the anisotropy-scaled coordinates `(x * anisotropy, y / anisotropy)`. -/
def gaborFbmAnisotropicState (kernel : GaborKernel) (s : GaborNoiseSettings)
    (x y : ℚ) : FbmState :=
  fbmLoop (fun f => kernel (x * s.anisotropy) (y / s.anisotropy) f s.bandwidth
    s.kernel_radius) s.visualization s.show_octave s.gain s.lacunarity
    s.octaves 1 ⟨0, s.base_frequency, 1, 0⟩

/-- `GaborNoiseImpl::fbm_anisotropic`: divides by `max_value.max(0.001)`. -/
def gaborFbmAnisotropic (kernel : GaborKernel) (s : GaborNoiseSettings) (x y : ℚ) : ℚ :=
  (gaborFbmAnisotropicState kernel s x y).total /
    max (gaborFbmAnisotropicState kernel s x y).maxValue (1 / 1000)

/-- `GaborNoiseImpl::fbm_domain_warp` (uses the unadjusted settings). -/
def gaborFbmDomainWarp (kernel : GaborKernel) (s : GaborNoiseSettings) (x y : ℚ) : ℚ :=
  let qx := gaborFbmStandard kernel s x y
  let qy := gaborFbmStandard kernel s (x + 26 / 5) (y + 13 / 10)
  gaborFbmStandard kernel s (x + s.warp_amount * qx) (y + s.warp_amount * qy)

/-- The per-index closure of `GaborNoiseImpl::generate_coloring`: pixel `i`
maps to grid coordinate `(i % RESOLUTION, i / RESOLUTION)` and yields 4 RGBA
bytes (the `flat_map` body of the parallel iterator). -/
def gaborPixel (kernel : GaborKernel) (s : GaborNoiseSettings) (i : Nat) : List Nat :=
  let x := i % RESOLUTION
  let y := i / RESOLUTION
  let nx := ((x : ℚ) - (HALF_RESOLUTION : ℚ)) / s.scale
  let ny := ((y : ℚ) - (HALF_RESOLUTION : ℚ)) / s.scale
  let noiseVal :=
    match s.noise_type with
    | .Standard => gaborFbmStandard kernel s nx ny
    | .Turbulence => gaborFbmTurbulence kernel s nx ny
    | .Anisotropic => gaborFbmAnisotropic kernel s nx ny
    | .DomainWarp => gaborFbmDomainWarp kernel s nx ny
  if noiseVal < 0 then
    let t := noiseVal + 1
    [255, f64AsU8 (lerp t 0 255), 255, 255]
  else
    [f64AsU8 (lerp noiseVal 255 0), 255, f64AsU8 (lerp noiseVal 255 0), 255]

/-- `GaborNoiseImpl::generate_coloring`: what the order-preserving parallel
`(0..R*R).into_par_iter().flat_map(..).collect()` gathers, namely the
sequential concatenation of the per-index byte quadruples. -/
def gaborGenerateColoring (kernel : GaborKernel) (s : GaborNoiseSettings) : List Nat :=
  (List.range (RESOLUTION * RESOLUTION)).flatMap (gaborPixel kernel s)

/-- `WorleyNoiseImpl::hash2d`: per-cell feature-point offset in `[0,1)²`,
derived from the shared double-lookup index by the fixed multipliers 127 and
311 with 256-bucket quantization. -/
def worley_hash2d (tb : List Nat) (x y : ℤ) : ℚ × ℚ :=
  let h := worley_hash_index tb x y
  ((((h * 127) % 256 : Nat) : ℚ) / 256, (((h * 311) % 256 : Nat) : ℚ) / 256)

/-- The largest finite `f64`, the `f64::MAX` the Worley distance trackers
start from. -/
noncomputable def f64MAX : ℝ := 2 ^ 1024 - 2 ^ 971

/-- Distance of the query's fractional position `(xf, yf)` to the feature
point of the cell at offset `(dx, dy)`, under the selected metric — the
`match distance_metric` expression of `WorleyNoiseImpl::worley_distance`.
`f64::powf` on the non-negative Minkowski operands is `Real.rpow`. -/
noncomputable def worleyDist (metric : DistanceMetric) (xf yf px py : ℝ) : ℝ :=
  match metric with
  | .Euclidean => Real.sqrt ((px - xf) * (px - xf) + (py - yf) * (py - yf))
  | .Manhattan => |px - xf| + |py - yf|
  | .Chebyshev => max |px - xf| |py - yf|
  | .Minkowski => (|px - xf| ^ (3 : ℝ) + |py - yf| ^ (3 : ℝ)) ^ ((1 : ℝ) / 3)

open scoped Classical in
/-- The `(min_dist1, min_dist2)` tracking step of
`WorleyNoiseImpl::worley_distance`. -/
noncomputable def worleyTrack (st : ℝ × ℝ) (dist : ℝ) : ℝ × ℝ :=
  if dist < st.1 then (dist, st.1)
  else if dist < st.2 then (st.1, dist)
  else st

/-- The 3×3 neighborhood offsets in the iteration order of the source
(`dy` outer, `dx` inner), as `(dx, dy)` pairs. -/
def worleyCells : List (ℤ × ℤ) :=
  [(-1, -1), (0, -1), (1, -1), (-1, 0), (0, 0), (1, 0), (-1, 1), (0, 1), (1, 1)]

/-- `WorleyNoiseImpl::worley_distance`: nearest and second-nearest feature
distances over the 3×3 neighborhood, both trackers starting at `f64::MAX`. -/
noncomputable def worley_distance (tb : List Nat) (x y : ℝ)
    (metric : DistanceMetric) : ℝ × ℝ :=
  let xi : ℤ := ⌊x⌋
  let yi : ℤ := ⌊y⌋
  let xf : ℝ := x - (xi : ℝ)
  let yf : ℝ := y - (yi : ℝ)
  worleyCells.foldl
    (fun st c =>
      let off := worley_hash2d tb (xi + c.1) (yi + c.2)
      let px : ℝ := (c.1 : ℝ) + (off.1 : ℝ)
      let py : ℝ := (c.2 : ℝ) + (off.2 : ℝ)
      worleyTrack st (worleyDist metric xf yf px py))
    (f64MAX, f64MAX)

/-- Modelled from the claim's words, for comparison only: a Gabor fBm loop in
which `frequency` starts at 1 and the kernel is sampled at the
frequency-scaled coordinates `(x*frequency, y*frequency)`, frequency
multiplying by lacunarity each octave (the kernel keeps receiving
`base_frequency` as its frequency argument, which that reading leaves
untouched). -/
def gaborFbmStandardClaimed (kernel : GaborKernel) (s : GaborNoiseSettings)
    (x y : ℚ) : ℚ :=
  (fbmLoop
    (fun f => kernel (x * f) (y * f) s.base_frequency s.bandwidth s.kernel_radius)
    s.visualization s.show_octave s.gain s.lacunarity s.octaves 1 ⟨0, 1, 1, 0⟩).total /
  max (fbmLoop
    (fun f => kernel (x * f) (y * f) s.base_frequency s.bandwidth s.kernel_radius)
    s.visualization s.show_octave s.gain s.lacunarity s.octaves 1 ⟨0, 1, 1, 0⟩).maxValue
    (1 / 1000)

/-- The visualization and show-octave combinations under which the fBm
inclusion predicate selects at least one of octaves `1..=octaves`. -/
def selectsOctave (v : Visualization) (showOct octaves : Nat) : Prop :=
  v = .Final ∨ (v = .SingleOctave ∧ 1 ≤ showOct ∧ showOct ≤ octaves) ∨
    (v = .AccumulatedOctaves ∧ 1 ≤ showOct)

/-- Default-slider Perlin snapshot except where noted; used as a base for the
concrete evaluations below. -/
def perlinBase : PerlinNoiseSettings :=
  { seed := 42, scale := 50, octaves := 1, lacunarity := 2, gain := 1 / 2
    h_exponent := 1, ridge_offset := 1, warp_amount := 4, show_octave := 1
    visualization := .Final, noise_type := .Standard, show_grid := false
    show_vectors := false, show_dot_products := false }

/-- Default-slider Simplex snapshot except where noted. -/
def simplexBase : SimplexNoiseSettings :=
  { seed := 42, scale := 50, octaves := 1, lacunarity := 2, gain := 1 / 2
    h_exponent := 1, ridge_offset := 1, warp_amount := 4, show_octave := 1
    visualization := .Final, noise_type := .Standard, show_grid := false
    show_vectors := false }

/-- Default-slider Gabor snapshot except where noted. -/
def gaborBase : GaborNoiseSettings :=
  { seed := 42, scale := 50, octaves := 1, lacunarity := 2, gain := 1 / 2
    base_frequency := 10, bandwidth := 1 / 2, kernel_radius := 3
    anisotropy := 1, warp_amount := 4, show_octave := 1
    visualization := .Final, noise_type := .Standard, show_grid := false
    show_impulses := false }

/-- A snapshot whose `octaves ≥ 1` and `gain > 0` but whose `SingleOctave`
selection points past the last octave, so no octave is ever included. -/
def c2CounterSettings : PerlinNoiseSettings :=
  { perlinBase with octaves := 1, show_octave := 2, visualization := .SingleOctave }

/-- A probe kernel that reports the x-coordinate it was sampled at. -/
def c3Probe : GaborKernel := fun a _ _ _ _ => a

/-- Two octaves at lacunarity 3, gain 1, Final visualization: settings under
which coordinate scaling (or its absence) across octaves becomes visible. -/
def c3Settings : GaborNoiseSettings :=
  { gaborBase with octaves := 2, lacunarity := 3, gain := 1 }

/-- Two-octave ridge snapshot with `gain = 0.5`, Final visualization
(`lacunarity = 1` so a constant stub kernel gives equal octave samples). -/
def c4Settings2 : PerlinNoiseSettings :=
  { perlinBase with octaves := 2, lacunarity := 1, noise_type := .Ridge }

/-- The same ridge snapshot truncated to one octave, to isolate the second
octave's contribution. -/
def c4Settings1 : PerlinNoiseSettings :=
  { c4Settings2 with octaves := 1 }

/-- A Gabor snapshot whose `SingleOctave` selection points past the last
octave, so the loop accumulates nothing and `max_value` stays 0. -/
def c10Settings : GaborNoiseSettings :=
  { gaborBase with octaves := 1, show_octave := 2, visualization := .SingleOctave }

/-- An arbitrary concrete Gabor kernel for closed instantiations. -/
def zeroKernel : GaborKernel := fun _ _ _ _ _ => 0

/-! Theorems. -/

theorem maskZ_lt (z : ℤ) : maskZ z < 256 := by
  unfold maskZ
  have h1 := Int.emod_nonneg z (by norm_num : (256 : ℤ) ≠ 0)
  have h2 := Int.emod_lt_of_pos z (by norm_num : (0 : ℤ) < 256)
  omega

theorem cons_set_perm (tl : List Nat) : ∀ (m a : Nat), m < tl.length →
    (tl.getD m 0 :: tl.set m a).Perm (a :: tl) := by
  induction tl with
  | nil => intro m a h; simp at h
  | cons c t ih =>
    intro m a h
    cases m with
    | zero => simpa using List.Perm.swap a c t
    | succ k =>
      have hk : k < t.length := by simpa using h
      simp only [List.getD_cons_succ, List.set_cons_succ]
      exact ((List.Perm.swap c (t.getD k 0) (t.set k a)).trans
        (List.Perm.cons c (ih k a hk))).trans (List.Perm.swap a c t)

theorem swapAt_perm (l : List Nat) : ∀ (i j : Nat), i < l.length → j < l.length →
    (swapAt l i j).Perm l := by
  induction l with
  | nil => intro i j hi _; simp at hi
  | cons a t ih =>
    intro i j hi hj
    cases i with
    | zero =>
      cases j with
      | zero =>
        simp only [swapAt, List.getD_cons_zero, List.set_cons_zero]
        exact List.Perm.refl _
      | succ m =>
        have hm : m < t.length := by simpa using hj
        simp only [swapAt, List.getD_cons_succ, List.getD_cons_zero,
          List.set_cons_zero, List.set_cons_succ]
        exact cons_set_perm t m a hm
    | succ n =>
      cases j with
      | zero =>
        have hn : n < t.length := by simpa using hi
        simp only [swapAt, List.getD_cons_succ, List.getD_cons_zero,
          List.set_cons_zero, List.set_cons_succ]
        exact cons_set_perm t n a hn
      | succ m =>
        have hn : n < t.length := by simpa using hi
        have hm : m < t.length := by simpa using hj
        simp only [swapAt, List.getD_cons_succ, List.set_cons_succ]
        exact List.Perm.cons a (by simpa [swapAt] using ih n m hn hm)

theorem shuffleFrom_perm (seed : Nat) : ∀ (n : Nat) (l : List Nat), n < l.length →
    (shuffleFrom seed n l).Perm l := by
  intro n
  induction n with
  | zero => intro l _; exact List.Perm.refl l
  | succ i ih =>
    intro l h
    have hj : squirrel_noise5 (i + 1) seed % (i + 2) < l.length :=
      lt_of_lt_of_le (Nat.mod_lt _ (by omega)) (by omega)
    have hlen : (swapAt l (i + 1) (squirrel_noise5 (i + 1) seed % (i + 2))).length
        = l.length := by simp [swapAt]
    have hi : i < (swapAt l (i + 1) (squirrel_noise5 (i + 1) seed % (i + 2))).length := by
      rw [hlen]; omega
    exact (ih _ hi).trans (swapAt_perm l (i + 1) _ h hj)

theorem buildTable_perm (seed : Nat) : (buildTable seed).Perm (List.range 256) :=
  shuffleFrom_perm seed 255 (List.range 256) (by simp)

/-- C5: for every seed, the permutation-table construction (identity table of
256 entries followed by the seeded Fisher–Yates shuffle) yields a bijection of
`{0, ..., 255}`: every value below 256 appears exactly once, and the table
still has 256 entries. -/
theorem buildTable_bijective (seed k : Nat) (hk : k < 256) :
    (buildTable seed).count k = 1 ∧ (buildTable seed).length = 256 := by
  have hp := buildTable_perm seed
  constructor
  · rw [List.perm_iff_count.mp hp k]
    exact List.count_eq_one_of_mem (List.nodup_range 256) (List.mem_range.mpr hk)
  · simpa using hp.length_eq

/-- Witness for C5 at seed 42, value 7. -/
theorem buildTable_bijective_witness :
    (buildTable 42).count 7 = 1 ∧ (buildTable 42).length = 256 :=
  buildTable_bijective 42 7 (by decide)

/-- C7 counterexample: the gradient vector selected by hash 1 is `(1, 1)`,
whose squared Euclidean length is 2, not 1 — so its length is `√2`, and the
claim that every vector in the lookup table is a unit vector is false. -/
theorem get_perlin_vec_not_unit :
    get_perlin_vec 1 = (1, 1) ∧ sqLen (get_perlin_vec 1) = 2 ∧ (2 : ℚ) ≠ 1 := by
  refine ⟨by decide, by norm_num [get_perlin_vec, sqLen], by norm_num⟩

/-- C7 amended: each of the 8 fixed gradient vectors is nonzero, and its
Euclidean length is either 1 (the four axis-aligned vectors) or `√2` (the
four diagonals) — stated via the squared length being 1 or 2. -/
theorem get_perlin_vec_len (h : Nat) :
    get_perlin_vec h ≠ (0, 0) ∧
      (sqLen (get_perlin_vec h) = 1 ∨ sqLen (get_perlin_vec h) = 2) := by
  have hlt : h % 8 < 8 := Nat.mod_lt _ (by omega)
  unfold get_perlin_vec sqLen
  revert hlt
  generalize h % 8 = k
  intro hlt
  interval_cases k <;> norm_num [Prod.ext_iff]

/-- C9: the scalar-to-color quantizer maps 0 to white `(255,255,255,255)`,
1 to green `(0,255,0,255)` and −1 to magenta `(255,0,255,255)`, both in the
Perlin form (no pre-clamp) and in the Worley form (clamped to `[-1,1]`
first); alpha is 255 in every case. -/
theorem quantizer_endpoints :
    perlin_quantize 0 = [255, 255, 255, 255] ∧
    perlin_quantize 1 = [0, 255, 0, 255] ∧
    perlin_quantize (-1) = [255, 0, 255, 255] ∧
    worley_quantize 0 = [255, 255, 255, 255] ∧
    worley_quantize 1 = [0, 255, 0, 255] ∧
    worley_quantize (-1) = [255, 0, 255, 255] := by
  norm_num [perlin_quantize, worley_quantize, clampQ, lerp, f64AsU8, Int.toNat]

theorem worleyTrack_le {st : ℝ × ℝ} (h : st.1 ≤ st.2) (d : ℝ) :
    (worleyTrack st d).1 ≤ (worleyTrack st d).2 := by
  unfold worleyTrack
  split_ifs with h1 h2
  · exact le_of_lt h1
  · exact le_of_not_lt h1
  · exact h

theorem foldl_worleyTrack (f : ℤ × ℤ → ℝ) : ∀ (l : List (ℤ × ℤ)) (st : ℝ × ℝ),
    st.1 ≤ st.2 →
    (l.foldl (fun acc c => worleyTrack acc (f c)) st).1 ≤
      (l.foldl (fun acc c => worleyTrack acc (f c)) st).2 := by
  intro l
  induction l with
  | nil => intro st h; exact h
  | cons c t ih => intro st h; exact ih _ (worleyTrack_le h _)

/-- C8: for every permutation table, every query point and every distance
metric (Euclidean, Manhattan, Chebyshev, Minkowski p=3), the pair returned by
the 3×3-neighborhood Worley distance query satisfies `f1 ≤ f2`. -/
theorem worley_distance_ordered (tb : List Nat) (x y : ℝ) (metric : DistanceMetric) :
    (worley_distance tb x y metric).1 ≤ (worley_distance tb x y metric).2 := by
  unfold worley_distance
  exact foldl_worleyTrack _ worleyCells (f64MAX, f64MAX) le_rfl

theorem fbmLoop_total (oval : ℚ → ℚ) (vis : Visualization) (showOct : Nat) (d lac : ℚ) :
    ∀ (n i : Nat) (st : FbmState),
    (fbmLoop oval vis showOct d lac n i st).total =
      st.total + st.amplitude * ∑ j ∈ Finset.range n,
        (if octaveIncluded vis showOct (i + j) then
          oval (st.frequency * lac ^ j) * d ^ j else 0) := by
  intro n
  induction n with
  | zero => intro i st; simp [fbmLoop]
  | succ n ih =>
    intro i st
    rw [fbmLoop, ih, Finset.sum_range_succ']
    have hsum :
        (∑ j ∈ Finset.range n,
          if octaveIncluded vis showOct (i + (j + 1)) then
            oval (st.frequency * lac ^ (j + 1)) * d ^ (j + 1) else 0) =
        (∑ j ∈ Finset.range n,
          if octaveIncluded vis showOct (i + 1 + j) then
            oval (st.frequency * lac * lac ^ j) * d ^ j else 0) * d := by
      rw [Finset.sum_mul]
      refine Finset.sum_congr rfl fun j _ => ?_
      rw [show i + (j + 1) = i + 1 + j by omega]
      split_ifs
      · ring_nf
      · simp
    rw [hsum]
    simp only [Nat.add_zero, pow_zero, mul_one]
    by_cases hic : octaveIncluded vis showOct i <;>
      simp only [hic, if_true, if_false, Bool.false_eq_true, ite_true, ite_false] <;>
      generalize (∑ j ∈ Finset.range n,
        if octaveIncluded vis showOct (i + 1 + j) = true then
          oval (st.frequency * lac * lac ^ j) * d ^ j else 0) = S <;>
      ring

theorem fbmLoop_maxValue (oval : ℚ → ℚ) (vis : Visualization) (showOct : Nat) (d lac : ℚ) :
    ∀ (n i : Nat) (st : FbmState),
    (fbmLoop oval vis showOct d lac n i st).maxValue =
      st.maxValue + st.amplitude * ∑ j ∈ Finset.range n,
        (if octaveIncluded vis showOct (i + j) then d ^ j else 0) := by
  intro n
  induction n with
  | zero => intro i st; simp [fbmLoop]
  | succ n ih =>
    intro i st
    rw [fbmLoop, ih, Finset.sum_range_succ']
    have hsum :
        (∑ j ∈ Finset.range n,
          if octaveIncluded vis showOct (i + (j + 1)) then d ^ (j + 1) else 0) =
        (∑ j ∈ Finset.range n,
          if octaveIncluded vis showOct (i + 1 + j) then d ^ j else 0) * d := by
      rw [Finset.sum_mul]
      refine Finset.sum_congr rfl fun j _ => ?_
      rw [show i + (j + 1) = i + 1 + j by omega]
      split_ifs
      · ring_nf
      · simp
    rw [hsum]
    simp only [Nat.add_zero, pow_zero]
    by_cases hic : octaveIncluded vis showOct i <;>
      simp only [hic, if_true, if_false, Bool.false_eq_true, ite_true, ite_false] <;>
      generalize (∑ j ∈ Finset.range n,
        if octaveIncluded vis showOct (i + 1 + j) = true then d ^ j else 0) = S <;>
      ring

theorem fbmLoop_not_selected (oval : ℚ → ℚ) (showOct : Nat) (d lac fr : ℚ)
    (n : Nat) (h : n < showOct) :
    (fbmLoop oval .SingleOctave showOct d lac n 1 ⟨0, fr, 1, 0⟩).total = 0 ∧
    (fbmLoop oval .SingleOctave showOct d lac n 1 ⟨0, fr, 1, 0⟩).maxValue = 0 := by
  rw [fbmLoop_total, fbmLoop_maxValue]
  have hz : ∀ j ∈ Finset.range n,
      octaveIncluded .SingleOctave showOct (1 + j) = false := by
    intro j hj
    have := Finset.mem_range.mp hj
    simp only [octaveIncluded, beq_eq_false_iff_ne, ne_eq]
    omega
  constructor <;>
  · rw [Finset.sum_eq_zero fun j hj => by rw [hz j hj]; simp]
    ring

theorem fbmLoop_maxValue_pos (oval : ℚ → ℚ) (vis : Visualization) (showOct : Nat)
    (d lac fr : ℚ) (n : Nat) (hn : 1 ≤ n) (hd : 0 < d)
    (hsel : selectsOctave vis showOct n) :
    0 < (fbmLoop oval vis showOct d lac n 1 ⟨0, fr, 1, 0⟩).maxValue := by
  rw [fbmLoop_maxValue]
  simp only [zero_add, one_mul]
  apply Finset.sum_pos'
  · intro j _
    split_ifs
    · exact le_of_lt (pow_pos hd j)
    · exact le_rfl
  · obtain ⟨j₀, hj₀, hinc⟩ : ∃ j₀, j₀ ∈ Finset.range n ∧
        octaveIncluded vis showOct (1 + j₀) = true := by
      rcases hsel with h | ⟨h, h1, h2⟩ | ⟨h, h1⟩
      · exact ⟨0, Finset.mem_range.mpr (by omega), by simp [h, octaveIncluded]⟩
      · refine ⟨showOct - 1, Finset.mem_range.mpr (by omega), ?_⟩
        simp only [h, octaveIncluded, beq_iff_eq]
        omega
      · refine ⟨0, Finset.mem_range.mpr (by omega), ?_⟩
        simp only [h, octaveIncluded, decide_eq_true_eq]
        omega
    exact ⟨j₀, hj₀, by rw [if_pos hinc]; exact pow_pos hd j₀⟩

/-- C3 amended: per octave `j` (counting from 0), the Perlin standard fBm
samples the kernel at the frequency-scaled coordinates
`(x·lacunarity^j, y·lacunarity^j)` with frequency starting at 1 — but the
Gabor standard fBm does not: it samples the kernel at the fixed coordinates
`(x, y)` every octave and instead passes the running frequency, which starts
at `base_frequency` (not 1) and multiplies by lacunarity each octave, as the
kernel's frequency argument.  Both accumulators are exhibited in closed
form. -/
theorem fbm_frequency_contract (sample : ℚ → ℚ → ℚ) (fpow : ℚ → ℚ → ℚ)
    (kernel : GaborKernel) (sp : PerlinNoiseSettings) (sg : GaborNoiseSettings)
    (x y : ℚ) :
    perlinFbmStandard sample fpow sp x y =
      (∑ j ∈ Finset.range sp.octaves,
        if octaveIncluded sp.visualization sp.show_octave (1 + j) then
          sample (x * sp.lacunarity ^ j) (y * sp.lacunarity ^ j)
            * fpow sp.gain sp.h_exponent ^ j else 0) /
      (∑ j ∈ Finset.range sp.octaves,
        if octaveIncluded sp.visualization sp.show_octave (1 + j) then
          fpow sp.gain sp.h_exponent ^ j else 0) ∧
    gaborFbmStandard kernel sg x y =
      (∑ j ∈ Finset.range sg.octaves,
        if octaveIncluded sg.visualization sg.show_octave (1 + j) then
          kernel x y (sg.base_frequency * sg.lacunarity ^ j) sg.bandwidth
            sg.kernel_radius * sg.gain ^ j else 0) /
      max (∑ j ∈ Finset.range sg.octaves,
        if octaveIncluded sg.visualization sg.show_octave (1 + j) then
          sg.gain ^ j else 0) (1 / 1000) := by
  constructor
  · unfold perlinFbmStandard perlinFbmStandardState
    rw [fbmLoop_total, fbmLoop_maxValue]
    simp [one_mul, zero_add]
  · unfold gaborFbmStandard gaborFbmStandardState
    rw [fbmLoop_total, fbmLoop_maxValue]
    simp [one_mul, zero_add]

/-- C3 counterexample: with the probe kernel returning its x-coordinate
argument, two octaves at lacunarity 3 and gain 1 in Final visualization, the
source Gabor fBm returns 1 at `(1, 0)` (the sampled x-coordinate never
changes across octaves), while the fBm the claim describes — frequency
starting at 1 and coordinates scaled by it — returns 2. -/
theorem gabor_fbm_coordinate_counterexample :
    gaborFbmStandard c3Probe c3Settings 1 0 = 1 ∧
    gaborFbmStandardClaimed c3Probe c3Settings 1 0 = 2 ∧ (1 : ℚ) ≠ 2 := by
  refine ⟨?_, ?_, by norm_num⟩ <;>
  · simp only [gaborFbmStandard, gaborFbmStandardClaimed, gaborFbmStandardState,
      c3Settings, c3Probe, gaborBase, fbmLoop, octaveIncluded]
    norm_num

/-- C10: every Gabor fBm accumulator (standard, turbulence, anisotropic)
divides its accumulated total by `max_value.max(0.001)`, a denominator that
is at least `0.001 > 0` for every kernel, every settings snapshot and every
input point; in particular, when the visualization predicate includes no
octave (SingleOctave with `show_octave > octaves`), `max_value` stays 0 and
each accumulator returns the well-defined value 0 instead of dividing by
zero. -/
theorem gabor_division_guard (kernel : GaborKernel) (s : GaborNoiseSettings)
    (x y : ℚ) :
    (gaborFbmStandard kernel s x y =
        (gaborFbmStandardState kernel s x y).total /
          max (gaborFbmStandardState kernel s x y).maxValue (1 / 1000) ∧
      0 < max (gaborFbmStandardState kernel s x y).maxValue (1 / 1000)) ∧
    (gaborFbmTurbulence kernel s x y =
        (gaborFbmTurbulenceState kernel s x y).total /
          max (gaborFbmTurbulenceState kernel s x y).maxValue (1 / 1000) ∧
      0 < max (gaborFbmTurbulenceState kernel s x y).maxValue (1 / 1000)) ∧
    (gaborFbmAnisotropic kernel s x y =
        (gaborFbmAnisotropicState kernel s x y).total /
          max (gaborFbmAnisotropicState kernel s x y).maxValue (1 / 1000) ∧
      0 < max (gaborFbmAnisotropicState kernel s x y).maxValue (1 / 1000)) ∧
    (s.visualization = .SingleOctave → s.octaves < s.show_octave →
      gaborFbmStandard kernel s x y = 0 ∧ gaborFbmTurbulence kernel s x y = 0 ∧
        gaborFbmAnisotropic kernel s x y = 0) := by
  have hpos : (0 : ℚ) < 1 / 1000 := by norm_num
  refine ⟨⟨rfl, lt_of_lt_of_le hpos (le_max_right _ _)⟩,
    ⟨rfl, lt_of_lt_of_le hpos (le_max_right _ _)⟩,
    ⟨rfl, lt_of_lt_of_le hpos (le_max_right _ _)⟩, ?_⟩
  intro hvis hlt
  refine ⟨?_, ?_, ?_⟩ <;>
  · simp only [gaborFbmStandard, gaborFbmStandardState, gaborFbmTurbulence,
      gaborFbmTurbulenceState, gaborFbmAnisotropic, gaborFbmAnisotropicState]
    rw [hvis]
    rw [(fbmLoop_not_selected _ _ _ _ _ _ hlt).1]
    exact zero_div _

/-- Witness for C10: a snapshot whose SingleOctave selection points past the
single octave makes all three accumulators return 0. -/
theorem gabor_division_guard_witness :
    gaborFbmStandard zeroKernel c10Settings 1 0 = 0 ∧
    gaborFbmTurbulence zeroKernel c10Settings 1 0 = 0 ∧
    gaborFbmAnisotropic zeroKernel c10Settings 1 0 = 0 :=
  (gabor_division_guard zeroKernel c10Settings 1 0).2.2.2 rfl (by decide)

/-- C2 amended: for the Perlin and Simplex standard fBm accumulators, if
`octaves ≥ 1`, `gain > 0` (with `powf` preserving positivity, as `f64::powf`
does on a positive base), and the visualization selects at least one octave —
always true in Final mode, requiring `1 ≤ show_octave ≤ octaves` in
SingleOctave mode and `show_octave ≥ 1` in AccumulatedOctaves mode — then the
`max_value` present at the final division is strictly positive.  The claim's
original "all show_octave values" fails: see the counterexample. -/
theorem fbm_standard_max_value_pos (sampleP sampleS : ℚ → ℚ → ℚ)
    (fpow : ℚ → ℚ → ℚ) (sp : PerlinNoiseSettings) (ss : SimplexNoiseSettings)
    (x y u v : ℚ) (hfpow : ∀ a b : ℚ, 0 < a → 0 < fpow a b)
    (hp1 : 1 ≤ sp.octaves) (hpg : 0 < sp.gain)
    (hpsel : selectsOctave sp.visualization sp.show_octave sp.octaves)
    (hs1 : 1 ≤ ss.octaves) (hsg : 0 < ss.gain)
    (hssel : selectsOctave ss.visualization ss.show_octave ss.octaves) :
    0 < (perlinFbmStandardState sampleP fpow sp x y).maxValue ∧
    0 < (simplexFbmStandardState sampleS fpow ss u v).maxValue :=
  ⟨fbmLoop_maxValue_pos _ _ _ _ _ _ _ hp1 (hfpow _ _ hpg) hpsel,
   fbmLoop_maxValue_pos _ _ _ _ _ _ _ hs1 (hfpow _ _ hsg) hssel⟩

/-- Witness for the amended C2 at the default snapshots (one octave, Final
visualization, gain 1/2) with `powf` instantiated to first projection. -/
theorem fbm_standard_max_value_pos_witness :
    0 < (perlinFbmStandardState (fun _ _ => 0) (fun a _ => a) perlinBase 0 0).maxValue ∧
    0 < (simplexFbmStandardState (fun _ _ => 0) (fun a _ => a) simplexBase 0 0).maxValue :=
  fbm_standard_max_value_pos (fun _ _ => 0) (fun _ _ => 0) (fun a _ => a)
    perlinBase simplexBase 0 0 0 0 (fun _ _ h => h) (le_refl 1) one_half_pos
    (Or.inl rfl) (le_refl 1) one_half_pos (Or.inl rfl)

/-- C2 counterexample: the snapshot with `octaves = 1`, `gain = 1/2 > 0`,
SingleOctave visualization and `show_octave = 2` satisfies every hypothesis
of the claim, yet the loop includes no octave and `max_value` is exactly 0 at
the division (evaluated with the real Perlin sampler over the seed-42
table). -/
theorem fbm_standard_max_value_zero :
    1 ≤ c2CounterSettings.octaves ∧ 0 < c2CounterSettings.gain ∧
    c2CounterSettings.visualization = Visualization.SingleOctave ∧
    (perlinFbmStandardState (fun a b => sample_noise (buildTable 42) a b false)
      (fun a _ => a) c2CounterSettings 0 0).maxValue = 0 :=
  ⟨le_refl 1, one_half_pos, rfl, rfl⟩

/-- C4 amended: in a two-octave ridge fBm with gain 0.5 and Final
visualization, the second octave's contribution is scaled by
`clamp(2·firstOctaveNoiseVal, 0, 1)` where `firstOctaveNoiseVal` is the raw
first-octave ridge value `ridge_offset − |sample₁|` — not by the clamp of
twice its squared, weighted contribution: the `weight` update in the source
reads the outer `noise_val` binding, before squaring and weighting. -/
theorem perlinFbmRidge_two_octave (sample : ℚ → ℚ → ℚ) (s : PerlinNoiseSettings)
    (x y : ℚ) (hoct : s.octaves = 2) (hvis : s.visualization = .Final)
    (hgain : s.gain = 1 / 2) :
    perlinFbmRidge sample s x y =
      ((s.ridge_offset - |sample x y|) * (s.ridge_offset - |sample x y|)
        + (s.ridge_offset - |sample (x * s.lacunarity) (y * s.lacunarity)|)
          * (s.ridge_offset - |sample (x * s.lacunarity) (y * s.lacunarity)|)
          * clampQ ((s.ridge_offset - |sample x y|) * 2) 0 1 * (1 / 2)) / (3 / 2) := by
  simp only [perlinFbmRidge, perlinFbmRidgeState, hoct, hvis, hgain, ridgeLoop,
    octaveIncluded, if_true, ite_true]
  ring_nf

/-- Witness for the amended C4 with the constant stub kernel 2/5 at the
two-octave ridge snapshot. -/
theorem perlinFbmRidge_two_octave_witness :
    perlinFbmRidge (fun _ _ => (2 : ℚ) / 5) c4Settings2 0 0 =
      ((c4Settings2.ridge_offset - |(2 : ℚ) / 5|)
          * (c4Settings2.ridge_offset - |(2 : ℚ) / 5|)
        + (c4Settings2.ridge_offset - |(2 : ℚ) / 5|)
          * (c4Settings2.ridge_offset - |(2 : ℚ) / 5|)
          * clampQ ((c4Settings2.ridge_offset - |(2 : ℚ) / 5|) * 2) 0 1 * (1 / 2))
        / (3 / 2) :=
  perlinFbmRidge_two_octave (fun _ _ => (2 : ℚ) / 5) c4Settings2 0 0 rfl rfl rfl

/-- C4 counterexample: with a stub kernel constantly 2/5 (so each raw ridge
value is 3/5), the second octave's contribution to the two-octave total is
9/50 — its unscaled contribution `(3/5)²·(1/2) = 9/50` times
`clamp(2·(3/5), 0, 1) = 1` — whereas the claimed scale factor
`clamp(2·firstOctaveNoiseVal², 0, 1) = 18/25` would give 81/625. -/
theorem ridge_weight_counterexample :
    (perlinFbmRidgeState (fun _ _ => (2 : ℚ) / 5) c4Settings2 0 0).total
        - (perlinFbmRidgeState (fun _ _ => (2 : ℚ) / 5) c4Settings1 0 0).total
      = 9 / 50 ∧
    clampQ (2 * ((1 - (2 : ℚ) / 5) * (1 - (2 : ℚ) / 5) * 1)) 0 1
        * ((1 - (2 : ℚ) / 5) * (1 - (2 : ℚ) / 5) * (1 / 2)) = 81 / 625 ∧
    (9 / 50 : ℚ) ≠ 81 / 625 := by
  have habs : |(2 : ℚ) / 5| = 2 / 5 := abs_of_nonneg (by norm_num)
  refine ⟨?_, ?_, by norm_num⟩
  · simp only [perlinFbmRidgeState, c4Settings2, c4Settings1, perlinBase,
      ridgeLoop, octaveIncluded, habs, clampQ, if_true, ite_true]
    norm_num [min_def, max_def]
  · norm_num [clampQ, min_def, max_def]

theorem flatten_map_flatMap (f : Nat → List Nat) (L : List (List Nat)) :
    (L.map fun c => c.flatMap f).flatten = L.flatten.flatMap f := by
  induction L with
  | nil => simp
  | cons c t ih => simp [ih]

/-- C1: the full-grid color computation is a pure function of the seed-derived
permutation table and the settings snapshot, so two independent evaluations
agree byte for byte; and for the Gabor family, whose `generate_coloring` runs
as an order-preserving parallel iterator, the gather of any partition of the
pixel-index range into chunks equals the sequential full-grid buffer — the
result is independent of the parallel split. -/
theorem generate_coloring_deterministic :
    (∀ (fpow : ℚ → ℚ → ℚ) (seed : Nat) (s : PerlinNoiseSettings),
      perlinGenerateColoring fpow (buildTable seed) s =
        perlinGenerateColoring fpow (buildTable seed) s) ∧
    (∀ (kernel : GaborKernel) (s : GaborNoiseSettings) (chunks : List (List Nat)),
      chunks.flatten = List.range (RESOLUTION * RESOLUTION) →
        (chunks.map fun c => c.flatMap (gaborPixel kernel s)).flatten =
          gaborGenerateColoring kernel s) :=
  ⟨fun _ _ _ => rfl,
   fun kernel s chunks h => by
    rw [flatten_map_flatMap, h]; rfl⟩

/-- Witness for C1: the single-chunk partition of the pixel range gathers to
the sequential Gabor buffer. -/
theorem generate_coloring_deterministic_witness :
    ([List.range (RESOLUTION * RESOLUTION)].map
        fun c => c.flatMap (gaborPixel zeroKernel gaborBase)).flatten =
      gaborGenerateColoring zeroKernel gaborBase :=
  generate_coloring_deterministic.2 zeroKernel gaborBase
    [List.range (RESOLUTION * RESOLUTION)] (by simp)

/-- C6 amended: the Gradient (Perlin), Gabor, Anisotropic and Worley kernels
all hash a lattice corner with the identical double-lookup fold
`table[(table[x & 255] + (y & 255)) & 255]`, but the Simplex kernel does not
use that fold: its corner index `get_perm(ii + get_perm(jj))` equals the
shared fold with the two coordinates exchanged —
`table[(table[y & 255] + (x & 255)) & 255]` — i.e. the inner lookup is on
the second coordinate instead of the first. -/
theorem hash_fold_shared (tb : List Nat) (i j x y : ℤ) :
    simplex_corner_hash tb i j = perlin_hash tb j i ∧
    gabor_hash tb x y = perlin_hash tb x y ∧
    anisotropic_hash tb x y = perlin_hash tb x y ∧
    worley_hash_index tb x y = perlin_hash tb x y := by
  refine ⟨?_, rfl, rfl, rfl⟩
  unfold simplex_corner_hash simplex_get_perm perlin_hash
  rw [Nat.mod_eq_of_lt (maskZ_lt j)]
  congr 1
  omega

set_option maxRecDepth 40000 in
/-- C6 counterexample: over the seed-42 table, the Simplex corner fold and
the shared `hash2d` fold disagree already at lattice corner (0, 1): the
Simplex kernel computes gradient index 204 where `hash2d` gives 40. -/
theorem simplex_hash_differs :
    simplex_corner_hash (buildTable 42) 0 1 = 204 ∧
    perlin_hash (buildTable 42) 0 1 = 40 ∧ (204 : Nat) ≠ 40 :=
  ⟨by decide, by decide, by decide⟩

end SeeingNoise
